import Mathlib

/-!
Verification of the HDF5 dataset metadata engine
(`convert_tuples_to_lists`, `search_file_tree`, `Folder`, `Dataset`
from `zea/data/datasets.py`), as a shallow embedding in Lean 4.

Part 1: the value model and the shape normalizer.
-/

namespace Datasets

mutual
/-- A YAML-like value: the nested structures `convert_tuples_to_lists`
operates on — mappings, ordered sequences, fixed-size tuples, and
scalars (numbers, strings, booleans, null). -/
inductive Val where
  | int : Int → Val
  | str : String → Val
  | bool : Bool → Val
  | null : Val
  | list : ValList → Val
  | tuple : ValList → Val
  | dict : ValPairs → Val

/-- A sequence of values (the elements of a list or tuple). -/
inductive ValList where
  | nil : ValList
  | cons : Val → ValList → ValList

/-- An insertion-ordered mapping from string keys to values. -/
inductive ValPairs where
  | nil : ValPairs
  | cons : String → Val → ValPairs → ValPairs
end

mutual
/-- Embedding of `convert_tuples_to_lists` (datasets.py lines 9-26):
dicts keep their keys with recursively converted values, lists and
tuples both become lists of recursively converted elements, and
anything else is returned unchanged. -/
def convert_tuples_to_lists : Val → Val
  | .dict kvs => .dict (convertPairs kvs)
  | .list xs => .list (convertValList xs)
  | .tuple xs => .list (convertValList xs)
  | .int n => .int n
  | .str s => .str s
  | .bool b => .bool b
  | .null => .null

/-- The map of `convert_tuples_to_lists` over the elements of a sequence. -/
def convertValList : ValList → ValList
  | .nil => .nil
  | .cons x xs => .cons (convert_tuples_to_lists x) (convertValList xs)

/-- The map of `convert_tuples_to_lists` over the values of a mapping. -/
def convertPairs : ValPairs → ValPairs
  | .nil => .nil
  | .cons k v kvs => .cons k (convert_tuples_to_lists v) (convertPairs kvs)
end

mutual
/-- Whether the value contains no fixed-size tuple at any depth. -/
def noTuples : Val → Bool
  | .dict kvs => noTuplesPairs kvs
  | .list xs => noTuplesList xs
  | .tuple _ => false
  | .int _ => true
  | .str _ => true
  | .bool _ => true
  | .null => true

/-- Whether no element of the sequence contains a tuple. -/
def noTuplesList : ValList → Bool
  | .nil => true
  | .cons x xs => noTuples x && noTuplesList xs

/-- Whether no value of the mapping contains a tuple. -/
def noTuplesPairs : ValPairs → Bool
  | .nil => true
  | .cons _ v kvs => noTuples v && noTuplesPairs kvs
end

mutual
/-- Relation `sameUpToTuple v w`: holds iff `w` is structurally identical to `v`
except that a fixed-size tuple in `v` may appear as an ordered sequence
(with elementwise related contents) in `w`: mappings must have identical
keys in identical order, sequences stay sequences, scalars are equal. -/
def sameUpToTuple : Val → Val → Bool
  | .int a, .int b => a == b
  | .str a, .str b => a == b
  | .bool a, .bool b => a == b
  | .null, .null => true
  | .list xs, .list ys => sameUpToTupleList xs ys
  | .tuple xs, .list ys => sameUpToTupleList xs ys
  | .dict xs, .dict ys => sameUpToTuplePairs xs ys
  | _, _ => false

/-- Elementwise `sameUpToTuple` on sequences of equal length. -/
def sameUpToTupleList : ValList → ValList → Bool
  | .nil, .nil => true
  | .cons x xs, .cons y ys => sameUpToTuple x y && sameUpToTupleList xs ys
  | _, _ => false

/-- Keywise `sameUpToTuple` on mappings: identical keys in order,
related values. -/
def sameUpToTuplePairs : ValPairs → ValPairs → Bool
  | .nil, .nil => true
  | .cons k v kvs, .cons k2 v2 kvs2 =>
      k == k2 && sameUpToTuple v v2 && sameUpToTuplePairs kvs kvs2
  | _, _ => false
end

mutual
theorem sameUpToTuple_convert :
    ∀ v : Val, sameUpToTuple v (convert_tuples_to_lists v) = true
  | .int n => by simp [convert_tuples_to_lists, sameUpToTuple]
  | .str s => by simp [convert_tuples_to_lists, sameUpToTuple]
  | .bool b => by simp [convert_tuples_to_lists, sameUpToTuple]
  | .null => by simp [convert_tuples_to_lists, sameUpToTuple]
  | .list xs => by
      simpa [convert_tuples_to_lists, sameUpToTuple] using
        sameUpToTupleList_convert xs
  | .tuple xs => by
      simpa [convert_tuples_to_lists, sameUpToTuple] using
        sameUpToTupleList_convert xs
  | .dict kvs => by
      simpa [convert_tuples_to_lists, sameUpToTuple] using
        sameUpToTuplePairs_convert kvs

theorem sameUpToTupleList_convert :
    ∀ xs : ValList, sameUpToTupleList xs (convertValList xs) = true
  | .nil => by simp [convertValList, sameUpToTupleList]
  | .cons x xs => by
      simp [convertValList, sameUpToTupleList, sameUpToTuple_convert x,
        sameUpToTupleList_convert xs]

theorem sameUpToTuplePairs_convert :
    ∀ kvs : ValPairs, sameUpToTuplePairs kvs (convertPairs kvs) = true
  | .nil => by simp [convertPairs, sameUpToTuplePairs]
  | .cons k v kvs => by
      simp [convertPairs, sameUpToTuplePairs, sameUpToTuple_convert v,
        sameUpToTuplePairs_convert kvs]
end

mutual
theorem noTuples_convert :
    ∀ v : Val, noTuples (convert_tuples_to_lists v) = true
  | .int n => by simp [convert_tuples_to_lists, noTuples]
  | .str s => by simp [convert_tuples_to_lists, noTuples]
  | .bool b => by simp [convert_tuples_to_lists, noTuples]
  | .null => by simp [convert_tuples_to_lists, noTuples]
  | .list xs => by
      simpa [convert_tuples_to_lists, noTuples] using noTuplesList_convert xs
  | .tuple xs => by
      simpa [convert_tuples_to_lists, noTuples] using noTuplesList_convert xs
  | .dict kvs => by
      simpa [convert_tuples_to_lists, noTuples] using noTuplesPairs_convert kvs

theorem noTuplesList_convert :
    ∀ xs : ValList, noTuplesList (convertValList xs) = true
  | .nil => by simp [convertValList, noTuplesList]
  | .cons x xs => by
      simp [convertValList, noTuplesList, noTuples_convert x,
        noTuplesList_convert xs]

theorem noTuplesPairs_convert :
    ∀ kvs : ValPairs, noTuplesPairs (convertPairs kvs) = true
  | .nil => by simp [convertPairs, noTuplesPairs]
  | .cons k v kvs => by
      simp [convertPairs, noTuplesPairs, noTuples_convert v,
        noTuplesPairs_convert kvs]
end

/-- C4: `convert_tuples_to_lists` replaces every fixed-size tuple at any
nesting depth by an ordered sequence of its recursively normalized
elements, keeps every mapping's keys in insertion order with recursively
normalized values, and returns every scalar unchanged — so the output
contains no tuples and all leaf values equal the input's elementwise. -/
theorem convert_tuples_to_lists_normalizes (v : Val) :
    sameUpToTuple v (convert_tuples_to_lists v) = true ∧
    noTuples (convert_tuples_to_lists v) = true :=
  ⟨sameUpToTuple_convert v, noTuples_convert v⟩

/-!
Part 2: the tree scanner and the Folder aggregator.

The filesystem and the HDF5 reader are collaborators of the scanner; we
model a directory by its files, each file by the outcome of opening it
(a failure message, or its named entries), and each entry by the outcome
of reading its shape (a failure, no shape attribute, or a shape).
-/

deriving instance DecidableEq for Except

/-- A shape: an ordered, fixed-length sequence of dimension sizes. -/
abbrev Shape := List Nat

/-- The `file_shapes` mapping of a manifest: an insertion-ordered
mapping from key name to the list of shapes recorded for that key. -/
abbrev FileShapes := List (String × List Shape)

/-- One file record of a manifest (datasets.py lines 82-85, 106, 111-115). -/
structure FileRecord where
  path : String
  name : String
  warning : Option String
  error : Option String
deriving DecidableEq

/-- A manifest: the metadata dictionary built by `search_file_tree`
(lines 70-75) or parsed back from `dataset_info.yaml`. -/
structure Manifest where
  folder_path : String
  primary_key : Option String
  files : List FileRecord
  file_shapes : FileShapes
deriving DecidableEq

/-- One named entry of an HDF5 file. Reading its shape either raises
(`.error`), finds no shape attribute (`.ok none`, e.g. a group), or
yields a shape (`.ok (some s)`). -/
structure H5Entry where
  name : String
  shapeAccess : Except String (Option Shape)
deriving DecidableEq

/-- An HDF5 file on disk: its filename and the outcome of opening it —
a failure message, or its entries in `f.keys()` order. -/
structure H5File where
  fname : String
  content : Except String (List H5Entry)
deriving DecidableEq

/-- A directory: its files, the optional `dataset_info.yaml` cache
(`some (.error e)` = present but unparsable), and whether the directory
itself exists (globbing a nonexistent directory yields nothing, but
writing into it fails). -/
structure Dir where
  files : List H5File
  cache : Option (Except String Manifest)
  dirExists : Bool

/-- The exceptional outcomes of `search_file_tree`. -/
inductive ScanError where
  | invalidArgument (msg : String)
  | cacheParseError (msg : String)
  | ioError (msg : String)
deriving DecidableEq

/-- Whether a filename matches the glob pattern
for the given extension. -/
def matchesExt (ext : List Char) (f : H5File) : Bool :=
  ext.isSuffixOf f.fname.data

/-- The characters of the extension `.h5`. -/
def h5Ext : List Char := ['.', 'h', '5']

/-- The characters of the extension `.hdf5`. -/
def hdf5Ext : List Char := ['.', 'h', 'd', 'f', '5']

/-- Lexicographic order on character sequences by code point — the
order Python's `sorted` uses on strings. -/
def charListLe : List Char → List Char → Bool
  | [], _ => true
  | _ :: _, [] => false
  | a :: as, b :: bs =>
      if a.toNat < b.toNat then true
      else if b.toNat < a.toNat then false
      else charListLe as bs

/-- Comparison by filename (paths in one directory share the directory
part, so `sorted` on the paths orders by filename). -/
def fnameLe (a b : H5File) : Bool := charListLe a.fname.data b.fname.data

/-- Line 77: `sorted(folder_path.glob("*.h5")) + sorted(folder_path.glob("*.hdf5"))`. -/
def hdf5Files (d : Dir) : List H5File :=
  (d.files.filter (matchesExt h5Ext)).mergeSort fnameLe ++
    (d.files.filter (matchesExt hdf5Ext)).mergeSort fnameLe

/-- Appending one shape under a key in the `file_shapes` dict of lists
(lines 92-94 and 100-102): create the list at first occurrence, else
append at the key's existing position. -/
def appendShape (fs : FileShapes) (k : String) (s : Shape) : FileShapes :=
  match fs with
  | [] => [(k, [s])]
  | (k2, ss) :: rest =>
      if k2 = k then (k2, ss ++ [s]) :: rest
      else (k2, ss) :: appendShape rest k s

/-- The all-keys shape collection loop (lines 96-102): iterate the
file's entries in order; an entry without a shape attribute is skipped,
an entry with a shape appends it under the entry's name; a raising
access aborts the loop, returning the shapes collected so far together
with the failure message. -/
def collectAllKeys (fs : FileShapes) : List H5Entry → FileShapes × Option String
  | [] => (fs, none)
  | e :: rest =>
      match e.shapeAccess with
      | .error msg => (fs, some msg)
      | .ok none => collectAllKeys fs rest
      | .ok (some s) => collectAllKeys (appendShape fs e.name s) rest

/-- The specific-key branch (lines 88-94): if the key is among the
file's entries, read its shape (`f[k].shape` raises when the entry has
no shape attribute, and may raise on a corrupt entry) and append it
under the key; otherwise collect nothing. -/
def collectKeyForLength (fs : FileShapes) (k : String)
    (entries : List H5Entry) : FileShapes × Option String :=
  match entries.find? (fun e => e.name == k) with
  | none => (fs, none)
  | some e =>
      match e.shapeAccess with
      | .error msg => (fs, some msg)
      | .ok none => (fs, some "AttributeError: object has no attribute shape")
      | .ok (some s) => (appendShape fs k s, none)

/-- The shape collection step for one successfully opened file: the
specific-key branch when `hdf5_key_for_length` is truthy (a non-None,
nonempty string), else the all-keys branch (lines 87-102). -/
def collectShapes (kfl : Option String) (fs : FileShapes)
    (entries : List H5Entry) : FileShapes × Option String :=
  match kfl with
  | some k =>
      if k = "" then collectAllKeys fs entries
      else collectKeyForLength fs k entries
  | none => collectAllKeys fs entries

/-- The missing-primary-key warning (lines 104-106): set iff `key` is
truthy (non-None, nonempty) and absent from the file's entries. -/
def warnOf (key : Option String) (entries : List H5Entry) : Option String :=
  match key with
  | some k =>
      if k ≠ "" ∧ entries.all (fun e => !(e.name == k)) then
        some ("Primary key " ++ k ++ " not found in file")
      else none
  | none => none

/-- Processing one discovered file (the loop body, lines 79-115): on
open failure, an error record with only path/name/error; on success,
shape collection, then the missing-primary-key warning, then the
record. A failure partway through shape collection is caught by the
outer `except`: the record becomes an error record, while shapes
already appended to `file_shapes` remain. -/
def processFile (key kfl : Option String) (folderPath : String)
    (fs : FileShapes) (f : H5File) : FileShapes × FileRecord :=
  match f.content with
  | .error e => (fs, ⟨folderPath ++ "/" ++ f.fname, f.fname, none, some e⟩)
  | .ok entries =>
      match collectShapes kfl fs entries with
      | (fs2, some msg) =>
          (fs2, ⟨folderPath ++ "/" ++ f.fname, f.fname, none, some msg⟩)
      | (fs2, none) =>
          (fs2, ⟨folderPath ++ "/" ++ f.fname, f.fname, warnOf key entries, none⟩)

/-- The fold of `processFile` over the discovered files, accumulating
`file_shapes` and the file records in discovery order. -/
def scanFiles (key kfl : Option String) (folderPath : String) :
    List H5File → FileShapes → FileShapes × List FileRecord
  | [], fs => (fs, [])
  | f :: rest, fs =>
      let step1 := processFile key kfl folderPath fs f
      let step2 := scanFiles key kfl folderPath rest step1.1
      (step2.1, step1.2 :: step2.2)

/-- The observable outcome of one `search_file_tree` call: the returned
manifest or the raised error, what (if anything) was written to
`dataset_info.yaml`, and the paths of the array-container files the
call attempted to open. -/
structure ScanOutcome where
  result : Except ScanError Manifest
  written : Option Manifest
  opened : List String
deriving DecidableEq

/-- Embedding of `search_file_tree` (lines 29-125): validate the key
requirement, return the parsed cache when present and no rescan was
forced, otherwise scan the discovered files, assemble the manifest
(`convert_tuples_to_lists` is the identity on this typed manifest:
shapes are already sequences), optionally persist it, and return it. -/
def search_file_tree (d : Dir) (folder_path : String)
    (key hdf5_key_for_length : Option String)
    (redo write read_only : Bool) : ScanOutcome :=
  if key = none ∧ (redo = false ∨ write = true) then
    { result := .error (.invalidArgument
        "The key argument is required unless you pass redo=True and write=False"),
      written := none, opened := [] }
  else
    match (if redo then none else d.cache) with
    | some (.ok m) => { result := .ok m, written := none, opened := [] }
    | some (.error e) =>
        { result := .error (.cacheParseError e), written := none, opened := [] }
    | none =>
        let files := hdf5Files d
        let scanned := scanFiles key hdf5_key_for_length folder_path files []
        let m : Manifest :=
          ⟨folder_path, key, scanned.2, scanned.1⟩
        let openedPaths := files.map (fun f => folder_path ++ "/" ++ f.fname)
        if write = true ∧ read_only = false then
          if d.dirExists then
            { result := .ok m, written := some m, opened := openedPaths }
          else
            { result := .error (.ioError "No such file or directory"),
              written := none, opened := openedPaths }
        else
          { result := .ok m, written := none, opened := openedPaths }

namespace Folder

/-- Embedding of `Folder.validate` (lines 186-204): false as soon as
some record of some manifest carries an error or warning, or some key
of some manifest's `file_shapes` has a nonempty shape list with more
than one distinct shape (distinctness by elementwise value, via
`set(tuple(s) for s in shapes)`); true otherwise. -/
def validate (metadata : List Manifest) : Bool :=
  metadata.all fun m =>
    (m.files.all fun r => !(r.error.isSome || r.warning.isSome)) &&
      (m.file_shapes.all fun p => !(!p.2.isEmpty && decide (p.2.dedup.length > 1)))

/-- Python dict assignment `d[k] = v`: update the value in place when
the key is present, else append the pair at the end. -/
def dictInsert (d : List (String × Shape)) (k : String) (v : Shape) :
    List (String × Shape) :=
  match d with
  | [] => [(k, v)]
  | (k2, v2) :: rest =>
      if k2 = k then (k2, v) :: rest
      else (k2, v2) :: dictInsert rest k v

/-- Embedding of `Folder.get_shapes` (lines 206-218): for each manifest
in directory-list order, for each key with a nonempty shape list, write
the first recorded shape into the result mapping; later writes
overwrite earlier ones. -/
def get_shapes (metadata : List Manifest) : List (String × Shape) :=
  metadata.foldl
    (fun acc m =>
      m.file_shapes.foldl
        (fun acc2 p =>
          match p.2 with
          | [] => acc2
          | s :: _ => dictInsert acc2 p.1 s)
        acc)
    []

end Folder

/-!
Part 3: the claims about the scanner's control flow (key requirement,
cache reuse, read-only suppression).
-/

/-- Recognizer for the InvalidArgument (ValueError) outcome. -/
def isInvalidArg : Except ScanError Manifest → Bool
  | .error (.invalidArgument _) => true
  | _ => false

/-- C3: `search_file_tree` raises the InvalidArgument error (ValueError)
exactly when `key` is absent and (`redo` is false or `write` is true);
whenever `key` is provided, and whenever `key` is absent but `redo` is
true and `write` false, this error is not raised. -/
theorem search_file_tree_key_requirement (d : Dir) (p : String)
    (key kfl : Option String) (redo write read_only : Bool) :
    isInvalidArg (search_file_tree d p key kfl redo write read_only).result = true ↔
      key = none ∧ (redo = false ∨ write = true) := by
  by_cases hk : key = none ∧ (redo = false ∨ write = true)
  · simp [search_file_tree, hk, isInvalidArg]
  · unfold search_file_tree
    rw [if_neg hk]
    rcases hcc : (if redo then none else d.cache) with _ | me
    · simp only [hcc]
      by_cases hw : write = true ∧ read_only = false
      · have hkn : ¬key = none := fun h => hk ⟨h, Or.inr hw.1⟩
        by_cases hd : d.dirExists
        · simp [hw, hd, isInvalidArg, hkn]
        · simp [hw, hd, isInvalidArg, hkn]
      · simp [hw, isInvalidArg, hk]
    · rcases me with e | m
      · simp [hcc, isInvalidArg, hk]
      · simp [hcc, isInvalidArg, hk]

/-- C2: when `dataset_info.yaml` exists and parses and no rescan is
forced, the parsed manifest is returned verbatim: nothing is written,
no array-container file is opened, and the outcome is the same for
every provided `key` and every `hdf5_key_for_length`. -/
theorem search_file_tree_cache_hit (d : Dir) (p : String) (k : String)
    (kfl : Option String) (write read_only : Bool) (m : Manifest)
    (hc : d.cache = some (.ok m)) :
    search_file_tree d p (some k) kfl false write read_only =
      { result := .ok m, written := none, opened := [] } := by
  simp [search_file_tree, hc]

/-- A concrete cached manifest for the cache-hit witness. -/
def mCache : Manifest := ⟨"data", some "image", [], []⟩

/-- A concrete directory whose cache holds `mCache`. -/
def dCache : Dir := ⟨[], some (.ok mCache), true⟩

/-- Witness for C2 at a concrete directory with a parsed cache. -/
theorem search_file_tree_cache_hit_witness :
    dCache.cache = some (.ok mCache) ∧
      search_file_tree dCache "data" (some "image") none false true false =
        { result := .ok mCache, written := none, opened := [] } :=
  ⟨rfl, search_file_tree_cache_hit dCache "data" "image" none true false mCache rfl⟩

/-- C9: with `read_only=true` nothing is ever written to
`dataset_info.yaml`, whatever the `write` flag; and whenever the
directory exists (so that the writing variant also returns) the result
is exactly the one of the otherwise identical call with
`read_only=false`. -/
theorem search_file_tree_read_only (d : Dir) (p : String)
    (key kfl : Option String) (redo write : Bool) :
    (search_file_tree d p key kfl redo write true).written = none ∧
      (d.dirExists = true →
        (search_file_tree d p key kfl redo write true).result =
          (search_file_tree d p key kfl redo write false).result) := by
  constructor
  · by_cases hk : key = none ∧ (redo = false ∨ write = true)
    · simp [search_file_tree, hk]
    · unfold search_file_tree
      rw [if_neg hk]
      rcases hcc : (if redo then none else d.cache) with _ | me
      · simp only [hcc]
        simp
      · rcases me with e | m
        · simp [hcc]
        · simp [hcc]
  · intro hd
    by_cases hk : key = none ∧ (redo = false ∨ write = true)
    · simp [search_file_tree, hk]
    · unfold search_file_tree
      simp only [if_neg hk]
      rcases hcc : (if redo then none else d.cache) with _ | me
      · simp only [hcc]
        by_cases hw : write = true
        · simp [hw, hd]
        · simp [hw]
      · rcases me with e | m
        · simp [hcc]
        · simp [hcc]

/-!
Part 4: validation and shape aggregation (Folder.validate,
Folder.get_shapes).
-/

/-- A list has at most one distinct element (its deduplication has at
most one element) iff all its elements are pairwise equal. -/
theorem dedup_length_le_one_iff {α : Type _} [DecidableEq α] (l : List α) :
    l.dedup.length ≤ 1 ↔ ∀ a ∈ l, ∀ b ∈ l, a = b := by
  constructor
  · intro h a ha b hb
    rw [← List.mem_dedup] at ha hb
    rcases hl : l.dedup with _ | ⟨x, t⟩
    · rw [hl] at ha; cases ha
    · rcases t with _ | ⟨y, t2⟩
      · rw [hl] at ha hb
        simp only [List.mem_singleton] at ha hb
        rw [ha, hb]
      · rw [hl] at h; simp at h
  · intro h
    rcases hl : l.dedup with _ | ⟨x, t⟩
    · simp
    · rcases t with _ | ⟨y, t2⟩
      · simp
      · exfalso
        have hnd := l.nodup_dedup
        rw [hl] at hnd
        have hx : x ∈ l := by rw [← List.mem_dedup, hl]; simp
        have hy : y ∈ l := by rw [← List.mem_dedup, hl]; simp
        exact (List.nodup_cons.mp hnd).1 (h x hx y hy ▸ List.mem_cons_self y t2)

/-- C1: `Folder.validate` returns true iff no file record of any
manifest carries an error or warning and, within each manifest
independently (never across manifests), every key present in that
manifest's `file_shapes` maps to a list of shapes with at most one
distinct value under elementwise by-value comparison. -/
theorem validate_iff (metadata : List Manifest) :
    Folder.validate metadata = true ↔
      ∀ m ∈ metadata,
        (∀ r ∈ m.files, r.error = none ∧ r.warning = none) ∧
        (∀ p ∈ m.file_shapes, ∀ s1 ∈ p.2, ∀ s2 ∈ p.2, s1 = s2) := by
  unfold Folder.validate
  rw [List.all_eq_true]
  refine forall_congr' fun m => forall_congr' fun _ => ?_
  rw [Bool.and_eq_true, List.all_eq_true, List.all_eq_true]
  apply and_congr
  · refine forall_congr' fun r => forall_congr' fun _ => ?_
    simp [Option.isNone_iff_eq_none]
  · refine forall_congr' fun p => forall_congr' fun _ => ?_
    rw [Bool.not_eq_true', Bool.and_eq_false_iff]
    constructor
    · intro h
      rcases h with h | h
      · intro s1 hs1 s2 hs2
        rw [Bool.not_eq_false', List.isEmpty_eq_true] at h
        rw [h] at hs1; cases hs1
      · rw [decide_eq_false_iff_not, not_lt] at h
        exact (dedup_length_le_one_iff p.2).mp h
    · intro h
      right
      rw [decide_eq_false_iff_not, not_lt]
      exact (dedup_length_le_one_iff p.2).mpr h

/-- Lookup on a cons cell of an assoc list, with propositional equality
in place of the boolean test. -/
theorem lookup_cons' {β : Type _} (k k2 : String) (v2 : β)
    (t : List (String × β)) :
    ((k2, v2) :: t).lookup k = if k = k2 then some v2 else t.lookup k := by
  by_cases h : k = k2
  · subst h; simp
  · rw [if_neg h]
    simp [List.lookup, beq_false_of_ne h]

theorem getLast?_cons_or {α : Type _} (b : α) (l : List α) :
    (b :: l).getLast? = l.getLast?.or (some b) := by
  induction l generalizing b with
  | nil => simp
  | cons c t ih => simp [List.getLast?_cons_cons, ih, Option.or_assoc]

theorem foldl_or_shift {γ : Type _} (g : γ → Option Shape) :
    ∀ (l : List γ) (x : Option Shape),
      l.foldl (fun a it => (g it).or a) x =
        (l.foldl (fun a it => (g it).or a) none).or x
  | [], x => by simp
  | a :: t, x => by
      rw [List.foldl_cons, List.foldl_cons,
        foldl_or_shift g t ((g a).or x), foldl_or_shift g t ((g a).or none),
        Option.or_none, Option.or_assoc]

theorem lookup_foldl_or {γ : Type _} (k : String)
    (S : List (String × Shape) → γ → List (String × Shape))
    (g : γ → Option Shape)
    (hS : ∀ acc it, (S acc it).lookup k = (g it).or (acc.lookup k)) :
    ∀ (l : List γ) (acc : List (String × Shape)),
      (l.foldl S acc).lookup k =
        (l.foldl (fun a it => (g it).or a) none).or (acc.lookup k)
  | [], acc => by simp
  | a :: t, acc => by
      rw [List.foldl_cons, lookup_foldl_or k S g hS t (S acc a), hS,
        List.foldl_cons, foldl_or_shift g t ((g a).or none), Option.or_none,
        Option.or_assoc]

theorem foldl_or_eq_getLast? {γ : Type _} (g : γ → Option Shape) :
    ∀ l : List γ,
      l.foldl (fun a it => (g it).or a) none = (l.filterMap g).getLast?
  | [] => rfl
  | a :: t => by
      rw [List.foldl_cons, foldl_or_shift g t ((g a).or none), Option.or_none,
        foldl_or_eq_getLast? g t]
      rcases hg : g a with _ | b
      · rw [List.filterMap_cons_none hg, Option.or_none]
      · rw [List.filterMap_cons_some hg, getLast?_cons_or]

/-- Lookup in a Python-dict-style assoc list after assignment: the
assigned key now maps to the new value, every other key is unchanged. -/
theorem lookup_dictInsert (d : List (String × Shape)) (k k' : String) (v : Shape) :
    (Folder.dictInsert d k v).lookup k' =
      if k' = k then some v else d.lookup k' := by
  induction d with
  | nil =>
      rw [show Folder.dictInsert [] k v = [(k, v)] from rfl, lookup_cons']
  | cons p t ih =>
      rcases p with ⟨k2, v2⟩
      by_cases h2 : k2 = k
      · subst h2
        have hins : Folder.dictInsert ((k2, v2) :: t) k2 v = (k2, v) :: t := by
          simp [Folder.dictInsert]
        rw [hins, lookup_cons', lookup_cons']
        by_cases h' : k' = k2 <;> simp [h']
      · simp only [Folder.dictInsert, if_neg h2]
        rw [lookup_cons', lookup_cons']
        by_cases h' : k' = k2
        · subst h'
          have hne : ¬k' = k := fun h => h2 (h ▸ rfl)
          simp [hne]
        · simp [h', ih]

/-- Contribution of one `file_shapes` entry to the lookup of key `k`
through the `get_shapes` inner step. -/
theorem lookup_innerStep (k : String) (acc : List (String × Shape))
    (p : String × List Shape) :
    ((match p.2 with
      | [] => acc
      | s :: _ => Folder.dictInsert acc p.1 s) : List (String × Shape)).lookup k =
      ((if p.1 = k then p.2.head? else none).or (acc.lookup k)) := by
  rcases p with ⟨q, ss⟩
  rcases ss with _ | ⟨s, t⟩
  · simp
  · simp only [List.head?_cons]
    rw [lookup_dictInsert]
    by_cases h : q = k
    · subst h; simp
    · have : ¬k = q := fun hh => h (hh ▸ rfl)
      simp [h, this]

/-- The representative shape one manifest's `file_shapes` contributes
for key `k` through `get_shapes`: the first shape of the key's nonempty
list, a later entry for the same key overriding an earlier one. -/
def lastShape (entries : FileShapes) (k : String) : Option Shape :=
  entries.foldl (fun a p => (if p.1 = k then p.2.head? else none).or a) none

/-- When keys are unique in `file_shapes` (as in a Python dict), the
contributed shape is the head of the list the key maps to. -/
theorem lastShape_eq_lookup (k : String) :
    ∀ entries : FileShapes, (entries.map Prod.fst).Nodup →
      lastShape entries k = (entries.lookup k).bind List.head?
  | [], _ => rfl
  | p :: t, h => by
      rcases p with ⟨q, ss⟩
      have hshift := foldl_or_shift (fun p : String × List Shape =>
        if p.1 = k then p.2.head? else none) t
      unfold lastShape
      rw [List.foldl_cons, hshift, Option.or_none]
      by_cases hq : q = k
      · subst hq
        have hnotin : ∀ p2 ∈ t, p2.1 ≠ q := by
          intro p2 hp2 hEq
          have : q ∈ t.map Prod.fst := hEq ▸ List.mem_map_of_mem Prod.fst hp2
          exact (List.nodup_cons.mp (by simpa using h)).1 this
        have hnone : lastShape t q = none := by
          unfold lastShape
          rw [foldl_or_eq_getLast?]
          have : t.filterMap (fun p : String × List Shape =>
              if p.1 = q then p.2.head? else none) = [] := by
            rw [List.filterMap_eq_nil_iff]
            intro a ha
            simp [hnotin a ha]
          rw [this]; rfl
        rw [show t.foldl (fun a p => (if p.1 = q then p.2.head? else none).or a)
              none = lastShape t q from rfl, hnone, lookup_cons']
        simp
      · have hkq : ¬k = q := fun hh => hq (hh ▸ rfl)
        rw [show t.foldl (fun a p => (if p.1 = k then p.2.head? else none).or a)
              none = lastShape t k from rfl,
          lastShape_eq_lookup k t (by simpa using (List.nodup_cons.mp (by simpa using h)).2),
          lookup_cons']
        simp [hkq, hq]

/-- C8: under per-manifest key uniqueness (a Python dict cannot repeat
a key), `Folder.get_shapes` maps a key to the first shape recorded for
it in a manifest's `file_shapes` (file-discovery order `head`), taking
the value from the last-processed manifest whose list for that key is
nonempty (directory-list order: last write wins, total even when shapes
differ across manifests); keys whose list is empty or absent in every
manifest look up to `none`. -/
theorem get_shapes_last_wins (metadata : List Manifest) (k : String)
    (h : ∀ m ∈ metadata, (m.file_shapes.map Prod.fst).Nodup) :
    (Folder.get_shapes metadata).lookup k =
      (metadata.filterMap
        (fun m => (m.file_shapes.lookup k).bind List.head?)).getLast? := by
  unfold Folder.get_shapes
  rw [lookup_foldl_or k _ (fun m => lastShape m.file_shapes k)
    (fun acc m => by
      rw [lookup_foldl_or k _ (fun p : String × List Shape =>
        if p.1 = k then p.2.head? else none) (fun a p => lookup_innerStep k a p)]
      rfl)]
  rw [show (List.lookup k ([] : List (String × Shape))) = none from rfl,
    Option.or_none, foldl_or_eq_getLast?]
  exact congrArg List.getLast? (List.filterMap_congr
    (fun m hm => lastShape_eq_lookup k m.file_shapes (h m hm)))

/-- Concrete manifests for the `get_shapes` witness: key `a` has shapes
in both manifests (the second must win with its first shape), key `b`
has an empty list (must not appear). -/
def msShapes : List Manifest :=
  [⟨"p1", some "k", [], [("a", [[1], [2]]), ("b", [])]⟩,
   ⟨"p2", some "k", [], [("a", [[3]])]⟩]

/-- Witness for C8 at concrete manifests: the result for `a` is the
first shape of the last manifest, and `b` does not appear. -/
theorem get_shapes_last_wins_witness :
    (∀ m ∈ msShapes, (m.file_shapes.map Prod.fst).Nodup) ∧
      (Folder.get_shapes msShapes).lookup "a" =
        (msShapes.filterMap
          (fun m => (m.file_shapes.lookup "a").bind List.head?)).getLast? ∧
      (Folder.get_shapes msShapes).lookup "a" = some [3] ∧
      (Folder.get_shapes msShapes).lookup "b" = none :=
  ⟨by decide, get_shapes_last_wins msShapes "a" (by decide), by rfl, by rfl⟩

/-- A concrete empty existing directory for the read-only witness. -/
def dRW : Dir := ⟨[], none, true⟩

/-- Witness for C9 at a concrete directory. -/
theorem search_file_tree_read_only_witness :
    (search_file_tree dRW "data" (some "image") none true true true).written = none ∧
      (search_file_tree dRW "data" (some "image") none true true true).result =
        (search_file_tree dRW "data" (some "image") none true true false).result :=
  ⟨(search_file_tree_read_only dRW "data" (some "image") none true true).1,
   (search_file_tree_read_only dRW "data" (some "image") none true true).2 rfl⟩

/-!
Part 5: file discovery (C5), per-file error handling (C6, C7) and the
empty dataset (C10).
-/

theorem charListLe_trans : ∀ x y z : List Char,
    charListLe x y = true → charListLe y z = true → charListLe x z = true
  | [], _, _, _, _ => by simp [charListLe]
  | a :: as, [], _, h1, _ => by simp [charListLe] at h1
  | a :: as, b :: bs, [], _, h2 => by simp [charListLe] at h2
  | a :: as, b :: bs, c :: cs, h1, h2 => by
      simp only [charListLe] at h1 h2 ⊢
      by_cases hab : a.toNat < b.toNat
      · by_cases hbc : b.toNat < c.toNat
        · rw [if_pos (Nat.lt_trans hab hbc)]
        · rw [if_neg hbc] at h2
          by_cases hcb : c.toNat < b.toNat
          · rw [if_pos hcb] at h2; exact absurd h2 (by simp)
          · rw [if_pos (show a.toNat < c.toNat by omega)]
      · rw [if_neg hab] at h1
        by_cases hba : b.toNat < a.toNat
        · rw [if_pos hba] at h1; exact absurd h1 (by simp)
        · rw [if_neg hba] at h1
          by_cases hbc : b.toNat < c.toNat
          · rw [if_pos (show a.toNat < c.toNat by omega)]
          · rw [if_neg hbc] at h2
            by_cases hcb : c.toNat < b.toNat
            · rw [if_pos hcb] at h2; exact absurd h2 (by simp)
            · rw [if_neg hcb] at h2
              rw [if_neg (show ¬a.toNat < c.toNat by omega),
                if_neg (show ¬c.toNat < a.toNat by omega)]
              exact charListLe_trans as bs cs h1 h2

theorem charListLe_total : ∀ x y : List Char,
    charListLe x y = true ∨ charListLe y x = true
  | [], _ => Or.inl (by simp [charListLe])
  | _ :: _, [] => Or.inr (by simp [charListLe])
  | a :: as, b :: bs => by
      by_cases hab : a.toNat < b.toNat
      · exact Or.inl (by simp [charListLe, hab])
      · by_cases hba : b.toNat < a.toNat
        · exact Or.inr (by simp [charListLe, hba])
        · rcases charListLe_total as bs with h | h
          · exact Or.inl (by simp [charListLe, hab, hba, h])
          · exact Or.inr (by simp [charListLe, hab, hba, h])

theorem fnameLe_trans : ∀ a b c : H5File,
    fnameLe a b = true → fnameLe b c = true → fnameLe a c = true :=
  fun _ _ _ h1 h2 => charListLe_trans _ _ _ h1 h2

theorem fnameLe_total : ∀ a b : H5File, (fnameLe a b || fnameLe b a) = true := by
  intro a b
  rcases charListLe_total a.fname.data b.fname.data with h | h <;>
    simp [fnameLe, h]

/-- No filename can match both the `.h5` and the `.hdf5` glob: the two
suffixes are incompatible. -/
theorem ext_not_both (s : List Char) : ¬(h5Ext <:+ s ∧ hdf5Ext <:+ s) := by
  rintro ⟨h1, h2⟩
  have h3 : h5Ext <:+ hdf5Ext :=
    List.suffix_of_suffix_length_le h1 h2 (by decide)
  exact absurd h3 (by decide)

/-- On a fresh scan (rescan forced or no cache) with a satisfied key
requirement and a succeeding write step, `search_file_tree` returns the
manifest assembled from the discovered files. -/
theorem search_file_tree_fresh (d : Dir) (p : String)
    (key kfl : Option String) (redo write ro : Bool)
    (hkey : ¬(key = none ∧ (redo = false ∨ write = true)))
    (hfresh : redo = true ∨ d.cache = none)
    (hw : write = true ∧ ro = false → d.dirExists = true) :
    (search_file_tree d p key kfl redo write ro).result =
      .ok ⟨p, key, (scanFiles key kfl p (hdf5Files d) []).2,
        (scanFiles key kfl p (hdf5Files d) []).1⟩ := by
  unfold search_file_tree
  rw [if_neg hkey]
  have hcc : (if redo then none else d.cache) = none := by
    rcases hfresh with h | h
    · simp [h]
    · cases redo <;> simp [h]
  rw [hcc]
  by_cases hwr : write = true ∧ ro = false
  · have hd := hw hwr
    simp [hwr, hd]
  · simp [hwr]

/-- Every record produced by `processFile` carries the file's path and
name, whatever else happened. -/
theorem processFile_record (key kfl : Option String) (p : String)
    (fs : FileShapes) (f : H5File) :
    (processFile key kfl p fs f).2.path = p ++ "/" ++ f.fname ∧
      (processFile key kfl p fs f).2.name = f.fname := by
  rcases hc : f.content with e | entries
  · simp [processFile, hc]
  · rcases hs : collectShapes kfl fs entries with ⟨fs2, msg⟩
    rcases msg with _ | msg <;> simp [processFile, hc, hs]

/-- On open failure, `processFile` leaves `file_shapes` untouched and
produces the record holding only path, name and the error. -/
theorem processFile_error (key kfl : Option String) (p : String)
    (fs : FileShapes) (f : H5File) (e : String) (hc : f.content = .error e) :
    processFile key kfl p fs f =
      (fs, ⟨p ++ "/" ++ f.fname, f.fname, none, some e⟩) := by
  simp [processFile, hc]

/-- The records produced by a scan are named after the discovered
files, in discovery order. -/
theorem scanFiles_names (key kfl : Option String) (p : String) :
    ∀ (files : List H5File) (fs : FileShapes),
      (scanFiles key kfl p files fs).2.map (fun r => r.name) =
        files.map (fun f => f.fname)
  | [], fs => rfl
  | f :: rest, fs => by
      simp only [scanFiles, List.map_cons]
      rw [(processFile_record key kfl p fs f).2,
        scanFiles_names key kfl p rest _]

/-- Structural correspondence between discovered files and their
records: one record per file in order, always carrying path and name,
and the exact error record on open failure. -/
theorem scanFiles_forall2 (key kfl : Option String) (p : String) :
    ∀ (files : List H5File) (fs : FileShapes),
      List.Forall₂ (fun (f : H5File) (r : FileRecord) =>
        r.path = p ++ "/" ++ f.fname ∧ r.name = f.fname ∧
          ∀ e, f.content = .error e →
            r = ⟨p ++ "/" ++ f.fname, f.fname, none, some e⟩)
        files (scanFiles key kfl p files fs).2
  | [], fs => List.Forall₂.nil
  | f :: rest, fs => by
      simp only [scanFiles]
      refine List.Forall₂.cons
        ⟨(processFile_record key kfl p fs f).1,
         (processFile_record key kfl p fs f).2, ?_⟩
        (scanFiles_forall2 key kfl p rest _)
      intro e he
      rw [processFile_error key kfl p fs f e he]

/-- The names of the file records of a successful scan, in order. -/
def resultNames (o : ScanOutcome) : List String :=
  match o.result with
  | .ok m => m.files.map (fun r => r.name)
  | .error _ => []

/-- A directory holding `b.h5` and `a.hdf5`: the `.h5` group precedes
the `.hdf5` group, so discovery order is not globally sorted by name. -/
def dOrder : Dir := ⟨[⟨"b.h5", .ok []⟩, ⟨"a.hdf5", .ok []⟩], none, true⟩

theorem hdf5Files_dOrder : hdf5Files dOrder = dOrder.files := by
  unfold hdf5Files
  rw [show dOrder.files.filter (matchesExt h5Ext) = [⟨"b.h5", .ok []⟩] from rfl,
    show dOrder.files.filter (matchesExt hdf5Ext) = [⟨"a.hdf5", .ok []⟩] from rfl,
    List.mergeSort_singleton, List.mergeSort_singleton]
  rfl

/-- Counterexample to C5: a fresh scan of a directory holding `b.h5`
and `a.hdf5` records the files as `[b.h5, a.hdf5]`, which is not sorted
by filename (code-point order, as Python's `sorted` would give). -/
theorem scan_order_counterexample :
    resultNames (search_file_tree dOrder "d" (some "k") none true false false) =
      ["b.h5", "a.hdf5"] ∧
      ¬ List.Pairwise (fun a b : String => charListLe a.data b.data = true)
        ["b.h5", "a.hdf5"] := by
  constructor
  · have hres := search_file_tree_fresh dOrder "d" (some "k") none true false
      false (by simp) (Or.inl rfl) (by simp)
    rw [hdf5Files_dOrder] at hres
    unfold resultNames
    rw [hres]
    decide
  · decide

/-- C5 (amended): a fresh scan produces one record per discovered file
in discovery order; the discovered files are exactly the `.h5` matches
followed by the `.hdf5` matches, each group sorted by filename; and
when the directory's filenames are distinct the records are distinct
(the two glob groups cannot overlap). -/
theorem search_file_tree_discovery (d : Dir) (p : String)
    (key kfl : Option String) (redo write ro : Bool)
    (hkey : ¬(key = none ∧ (redo = false ∨ write = true)))
    (hfresh : redo = true ∨ d.cache = none)
    (hw : write = true ∧ ro = false → d.dirExists = true) :
    resultNames (search_file_tree d p key kfl redo write ro) =
        (hdf5Files d).map (fun f => f.fname) ∧
      ((hdf5Files d).map (fun f => f.fname)).Perm
        ((d.files.filter (matchesExt h5Ext)).map (fun f => f.fname) ++
          (d.files.filter (matchesExt hdf5Ext)).map (fun f => f.fname)) ∧
      List.Pairwise (fun a b => fnameLe a b = true)
        ((d.files.filter (matchesExt h5Ext)).mergeSort fnameLe) ∧
      List.Pairwise (fun a b => fnameLe a b = true)
        ((d.files.filter (matchesExt hdf5Ext)).mergeSort fnameLe) ∧
      ((d.files.map (fun f => f.fname)).Nodup →
        (resultNames (search_file_tree d p key kfl redo write ro)).Nodup) := by
  have hres := search_file_tree_fresh d p key kfl redo write ro hkey hfresh hw
  have hnames : resultNames (search_file_tree d p key kfl redo write ro) =
      (hdf5Files d).map (fun f => f.fname) := by
    unfold resultNames
    rw [hres]
    exact scanFiles_names key kfl p (hdf5Files d) []
  have hpermA := (List.mergeSort_perm (d.files.filter (matchesExt h5Ext)) fnameLe).map
    (fun f => f.fname)
  have hpermB := (List.mergeSort_perm (d.files.filter (matchesExt hdf5Ext)) fnameLe).map
    (fun f => f.fname)
  refine ⟨hnames, ?_, ?_, ?_, ?_⟩
  · rw [hdf5Files, List.map_append]
    exact hpermA.append hpermB
  · exact List.sorted_mergeSort (fun a b c => fnameLe_trans a b c)
      (fun a b => fnameLe_total a b) _
  · exact List.sorted_mergeSort (fun a b c => fnameLe_trans a b c)
      (fun a b => fnameLe_total a b) _
  · intro hnd
    rw [hnames, hdf5Files, List.map_append]
    rw [List.nodup_append]
    have hndA : ((d.files.filter (matchesExt h5Ext)).map (fun f => f.fname)).Nodup :=
      List.Sublist.nodup (List.Sublist.map _ (List.filter_sublist _)) hnd
    have hndB : ((d.files.filter (matchesExt hdf5Ext)).map (fun f => f.fname)).Nodup :=
      List.Sublist.nodup (List.Sublist.map _ (List.filter_sublist _)) hnd
    refine ⟨hpermA.nodup_iff.mpr hndA, hpermB.nodup_iff.mpr hndB, ?_⟩
    intro x hx1 hx2
    obtain ⟨a, haA, hax⟩ := List.mem_map.mp (hpermA.mem_iff.mp hx1)
    obtain ⟨b, hbB, hbx⟩ := List.mem_map.mp (hpermB.mem_iff.mp hx2)
    obtain ⟨haF, haM⟩ := List.mem_filter.mp haA
    obtain ⟨hbF, hbM⟩ := List.mem_filter.mp hbB
    have hab : a = b :=
      List.inj_on_of_nodup_map hnd haF hbF (hax.trans hbx.symm)
    refine ext_not_both a.fname.data ⟨?_, ?_⟩
    · simpa [matchesExt] using haM
    · rw [hab]
      simpa [matchesExt] using hbM

/-- Witness for the amended C5 at the concrete directory `dOrder`. -/
theorem search_file_tree_discovery_witness :
    dOrder.cache = none ∧
      resultNames (search_file_tree dOrder "d" (some "k") none true false false) =
        (hdf5Files dOrder).map (fun f => f.fname) ∧
      (resultNames (search_file_tree dOrder "d" (some "k") none true false false)).Nodup :=
  ⟨rfl,
   (search_file_tree_discovery dOrder "d" (some "k") none true false false
      (by simp) (Or.inl rfl) (by simp)).1,
   (search_file_tree_discovery dOrder "d" (some "k") none true false false
      (by simp) (Or.inl rfl) (by simp)).2.2.2.2 (by decide)⟩

/-- C6: a fresh scan never propagates a per-file open/read failure to
the caller: it returns a manifest with exactly one record per
discovered file, in order, each carrying the file's path and name, and
for each file whose open failed the record holds only path, name and
the failure description. -/
theorem search_file_tree_error_isolation (d : Dir) (p : String)
    (key kfl : Option String) (redo write ro : Bool)
    (hkey : ¬(key = none ∧ (redo = false ∨ write = true)))
    (hfresh : redo = true ∨ d.cache = none)
    (hw : write = true ∧ ro = false → d.dirExists = true) :
    (search_file_tree d p key kfl redo write ro).result.isOk = true ∧
      ∀ m, (search_file_tree d p key kfl redo write ro).result = .ok m →
        m.files.length = (hdf5Files d).length ∧
          List.Forall₂ (fun (f : H5File) (r : FileRecord) =>
            r.path = p ++ "/" ++ f.fname ∧ r.name = f.fname ∧
              ∀ e, f.content = .error e →
                r = ⟨p ++ "/" ++ f.fname, f.fname, none, some e⟩)
            (hdf5Files d) m.files := by
  have hres := search_file_tree_fresh d p key kfl redo write ro hkey hfresh hw
  refine ⟨by rw [hres]; rfl, ?_⟩
  intro m hm
  rw [hres] at hm
  injection hm with hm
  subst hm
  have h2 := scanFiles_forall2 key kfl p (hdf5Files d) []
  exact ⟨h2.length_eq.symm, h2⟩

/-- A directory whose only file fails to open. -/
def dErr : Dir := ⟨[⟨"x.h5", .error "corrupt"⟩], none, true⟩

theorem hdf5Files_dErr : hdf5Files dErr = dErr.files := by
  unfold hdf5Files
  rw [show dErr.files.filter (matchesExt h5Ext) = [⟨"x.h5", .error "corrupt"⟩] from rfl,
    show dErr.files.filter (matchesExt hdf5Ext) = [] from rfl,
    List.mergeSort_singleton, List.mergeSort_nil]
  rfl

/-- The manifest a fresh scan of `dErr` returns. -/
def mErr : Manifest :=
  ⟨"d", some "k", [⟨"d/x.h5", "x.h5", none, some "corrupt"⟩], []⟩

/-- Witness for C6 at `dErr`: the scan still returns (no exception),
with one error record for the corrupt file. -/
theorem search_file_tree_error_isolation_witness :
    (search_file_tree dErr "d" (some "k") none true false false).result.isOk = true ∧
      mErr.files.length = (hdf5Files dErr).length ∧
      List.Forall₂ (fun (f : H5File) (r : FileRecord) =>
        r.path = "d" ++ "/" ++ f.fname ∧ r.name = f.fname ∧
          ∀ e, f.content = .error e →
            r = ⟨"d" ++ "/" ++ f.fname, f.fname, none, some e⟩)
        (hdf5Files dErr) mErr.files := by
  have h := search_file_tree_error_isolation dErr "d" (some "k") none true false
    false (by simp) (Or.inl rfl) (by simp)
  have hm : (search_file_tree dErr "d" (some "k") none true false false).result =
      .ok mErr := by
    rw [search_file_tree_fresh dErr "d" (some "k") none true false false
      (by simp) (Or.inl rfl) (by simp), hdf5Files_dErr]
    decide
  exact ⟨h.1, (h.2 mErr hm).1, (h.2 mErr hm).2⟩

/-- A directory whose only file opens, yields one good entry, then
fails while reading the second entry's shape. -/
def dPart : Dir :=
  ⟨[⟨"a.h5", .ok [⟨"k1", .ok (some [1])⟩, ⟨"k2", .error "boom"⟩]⟩], none, true⟩

theorem hdf5Files_dPart : hdf5Files dPart = dPart.files := by
  unfold hdf5Files
  rw [show dPart.files.filter (matchesExt h5Ext) =
      [⟨"a.h5", .ok [⟨"k1", .ok (some [1])⟩, ⟨"k2", .error "boom"⟩]⟩] from rfl,
    show dPart.files.filter (matchesExt hdf5Ext) = [] from rfl,
    List.mergeSort_singleton, List.mergeSort_nil]
  rfl

/-- The manifest a fresh scan of `dPart` returns: the record carries
the error, yet `file_shapes` holds the shape read before the failure. -/
def mPart : Manifest :=
  ⟨"d", some "k", [⟨"d/a.h5", "a.h5", none, some "boom"⟩], [("k1", [[1]])]⟩

/-- Counterexample to C7: after a failure partway through reading a
file's entries, the file's record carries an error while shape
information already collected from that same file remains in
`file_shapes`. -/
theorem search_file_tree_midread_shapes_counterexample :
    (search_file_tree dPart "d" (some "k") none true false false).result =
        .ok mPart ∧
      mPart.files.all (fun r => r.error.isSome) = true ∧
      mPart.file_shapes ≠ [] := by
  refine ⟨?_, by decide, by decide⟩
  rw [search_file_tree_fresh dPart "d" (some "k") none true false false
    (by simp) (Or.inl rfl) (by simp), hdf5Files_dPart]
  decide

/-- Shape collection over entries with an error-free prefix followed by
a raising access: exactly the prefix's shapes are kept, and the
failure message is reported. -/
theorem collectAllKeys_midread (bad : H5Entry) (rest : List H5Entry)
    (msg : String) (hbad : bad.shapeAccess = .error msg) :
    ∀ (pre : List H5Entry) (fs : FileShapes),
      (∀ x ∈ pre, ∀ m, x.shapeAccess ≠ .error m) →
      collectAllKeys fs (pre ++ bad :: rest) =
        ((collectAllKeys fs pre).1, some msg)
  | [], fs, _ => by simp [collectAllKeys, hbad]
  | x :: pre, fs, hpre => by
      rcases hx : x.shapeAccess with m | s
      · exact absurd hx (hpre x (List.mem_cons_self x pre) m)
      · rcases s with _ | s
        · simp only [List.cons_append, collectAllKeys, hx]
          exact collectAllKeys_midread bad rest msg hbad pre fs
            (fun y hy => hpre y (List.mem_cons_of_mem x hy))
        · simp only [List.cons_append, collectAllKeys, hx]
          exact collectAllKeys_midread bad rest msg hbad pre _
            (fun y hy => hpre y (List.mem_cons_of_mem x hy))

/-- The whole-scan frame property of open failures: a file that fails
to open contributes nothing to the accumulated `file_shapes`. -/
theorem scanFiles_error_frame (key kfl : Option String) (p : String)
    (f : H5File) (e : String) (he : f.content = .error e) :
    ∀ (files1 files2 : List H5File) (fs : FileShapes),
      (scanFiles key kfl p (files1 ++ f :: files2) fs).1 =
        (scanFiles key kfl p (files1 ++ files2) fs).1
  | [], files2, fs => by
      simp only [List.nil_append, scanFiles,
        processFile_error key kfl p fs f e he]
  | g :: files1, files2, fs => by
      simp only [List.cons_append, scanFiles]
      exact scanFiles_error_frame key kfl p f e he files1 files2 _

/-- C7 (amended): when a file's open fails, no shape information from
it is collected — `file_shapes` is passed through untouched by its
processing step, and the whole scan's `file_shapes` equals that of the
scan without this file — and the record holds only path, name and the
error; when the failure instead occurs partway through reading the
file's entries (all-keys mode), the shapes read before the failure
remain in `file_shapes`, nothing after the failure is collected, and
the record again holds only path, name and the error. -/
theorem processFile_error_shapes (key kfl : Option String) (p : String)
    (fs : FileShapes) (f : H5File) :
    (∀ e, f.content = .error e →
      processFile key kfl p fs f =
        (fs, ⟨p ++ "/" ++ f.fname, f.fname, none, some e⟩)) ∧
    (∀ e files1 files2 fs0, f.content = .error e →
      (scanFiles key kfl p (files1 ++ f :: files2) fs0).1 =
        (scanFiles key kfl p (files1 ++ files2) fs0).1) ∧
    (∀ entries pre bad rest msg, f.content = .ok entries →
      entries = pre ++ bad :: rest →
      (∀ x ∈ pre, ∀ m, x.shapeAccess ≠ .error m) →
      bad.shapeAccess = .error msg →
      processFile key none p fs f =
        ((collectAllKeys fs pre).1,
          ⟨p ++ "/" ++ f.fname, f.fname, none, some msg⟩)) := by
  refine ⟨?_, ?_, ?_⟩
  · intro e he
    exact processFile_error key kfl p fs f e he
  · intro e files1 files2 fs0 he
    exact scanFiles_error_frame key kfl p f e he files1 files2 fs0
  · intro entries pre bad rest msg hc hsplit hpre hbad
    have hcoll := collectAllKeys_midread bad rest msg hbad pre fs hpre
    rw [← hsplit] at hcoll
    simp [processFile, hc, collectShapes, hcoll]

/-- Witness for the amended C7: an open failure collects nothing; a
partway failure keeps exactly the prefix's shapes. -/
theorem processFile_error_shapes_witness :
    (⟨"x.h5", .error "corrupt"⟩ : H5File).content = .error "corrupt" ∧
      processFile (some "k") none "d" [] ⟨"x.h5", .error "corrupt"⟩ =
        ([], ⟨"d" ++ "/" ++ "x.h5", "x.h5", none, some "corrupt"⟩) ∧
      (scanFiles (some "k") none "d"
          ([] ++ (⟨"x.h5", .error "corrupt"⟩ : H5File) :: []) [("z", [[2]])]).1 =
        (scanFiles (some "k") none "d" ([] ++ []) [("z", [[2]])]).1 ∧
      processFile (some "k") none "d" []
          ⟨"a.h5", .ok [⟨"k1", .ok (some [1])⟩, ⟨"k2", .error "boom"⟩]⟩ =
        ((collectAllKeys [] [⟨"k1", .ok (some [1])⟩]).1,
          ⟨"d" ++ "/" ++ "a.h5", "a.h5", none, some "boom"⟩) :=
  ⟨rfl,
   (processFile_error_shapes (some "k") none "d" [] ⟨"x.h5", .error "corrupt"⟩).1
     "corrupt" rfl,
   (processFile_error_shapes (some "k") none "d" [] ⟨"x.h5", .error "corrupt"⟩).2.1
     "corrupt" [] [] [("z", [[2]])] rfl,
   (processFile_error_shapes (some "k") none "d" []
       ⟨"a.h5", .ok [⟨"k1", .ok (some [1])⟩, ⟨"k2", .error "boom"⟩]⟩).2.2
     [⟨"k1", .ok (some [1])⟩, ⟨"k2", .error "boom"⟩]
     [⟨"k1", .ok (some [1])⟩] ⟨"k2", .error "boom"⟩ [] "boom"
     rfl rfl
     (by intro x hx m; rw [List.mem_singleton] at hx; subst hx; simp)
     rfl⟩

/-- C10: a Folder whose manifests all have empty `files` and empty
`file_shapes` validates successfully and yields no shapes; and a fresh
non-persisting scan of a directory with no matching array-container
files (in particular of a nonexistent directory) produces exactly such
an empty manifest — indistinguishable from a valid empty dataset. -/
theorem empty_dataset (ms : List Manifest) (p : String) (k : String)
    (kfl : Option String) (redo ro : Bool) (d : Dir)
    (hms : ∀ m ∈ ms, m.files = [] ∧ m.file_shapes = [])
    (hd : hdf5Files d = []) (hfresh : redo = true ∨ d.cache = none) :
    Folder.validate ms = true ∧ Folder.get_shapes ms = [] ∧
      (search_file_tree d p (some k) kfl redo false ro).result =
        .ok ⟨p, some k, [], []⟩ := by
  refine ⟨?_, ?_, ?_⟩
  · rw [Folder.validate, List.all_eq_true]
    intro m hm
    rw [(hms m hm).1, (hms m hm).2]
    rfl
  · have aux : ∀ (l : List Manifest) (acc : List (String × Shape)),
        (∀ m ∈ l, m.file_shapes = []) →
        l.foldl (fun acc2 m => m.file_shapes.foldl
          (fun acc3 q =>
            match q.2 with
            | [] => acc3
            | s :: _ => Folder.dictInsert acc3 q.1 s) acc2) acc = acc := by
      intro l
      induction l with
      | nil => intro acc _; rfl
      | cons m t ih =>
          intro acc h
          rw [List.foldl_cons]
          have h1 : m.file_shapes = [] := h m (List.mem_cons_self m t)
          rw [h1]
          exact ih acc (fun m2 hm2 => h m2 (List.mem_cons_of_mem m hm2))
    exact aux ms [] (fun m hm => (hms m hm).2)
  · rw [search_file_tree_fresh d p (some k) kfl redo false ro
      (by simp) hfresh (by simp), hd]
    rfl

/-- A nonexistent directory: nothing to glob, no cache. -/
def dEmpty : Dir := ⟨[], none, false⟩

/-- Witness for C10 at a one-manifest Folder and the nonexistent
directory. -/
theorem empty_dataset_witness :
    (∀ m ∈ [(⟨"p", some "k", [], []⟩ : Manifest)],
        m.files = [] ∧ m.file_shapes = []) ∧
      hdf5Files dEmpty = [] ∧
      Folder.validate [(⟨"p", some "k", [], []⟩ : Manifest)] = true ∧
      Folder.get_shapes [(⟨"p", some "k", [], []⟩ : Manifest)] = [] ∧
      (search_file_tree dEmpty "p" (some "k") none true false false).result =
        .ok ⟨"p", some "k", [], []⟩ := by
  have hd : hdf5Files dEmpty = [] := by
    unfold hdf5Files
    rw [show dEmpty.files.filter (matchesExt h5Ext) = [] from rfl,
      show dEmpty.files.filter (matchesExt hdf5Ext) = [] from rfl,
      List.mergeSort_nil]
    rfl
  have h := empty_dataset [(⟨"p", some "k", [], []⟩ : Manifest)] "p" "k" none
    true false dEmpty (by decide) hd (Or.inl rfl)
  exact ⟨by decide, hd, h.1, h.2.1, h.2.2⟩

end Datasets
